import Mathlib

/-!
Verification of the CyberShield-AI client against its specification.

The development shallowly embeds the image-enhancement pipeline
(`enhanceImageForAnalysis` in `src/App.tsx`), the analysis-request payload
construction and file-selection handling (`handleAnalyze`,
`handleFileChange`), and the scan-history update (`App`, `handleAnalyze`).

Modelling conventions:
* A pixel buffer (JavaScript `Uint8ClampedArray`, RGBA, 8-bit channels) is a
  total function `ℕ → ℕ`; index `(y * w + x) * 4 + c` holds channel `c` of
  pixel `(x, y)`, exactly as in the source.
* JavaScript numbers are embedded as `ℚ`. For the pixel passes this is
  exact: the sharpen kernel works on integers, and the contrast transform's
  constants `1.20` and `-25.6` only ever produce values whose distance to a
  rounding boundary far exceeds the double-precision error, so exact
  rationals and doubles round identically on all 256 byte values. The
  resize arithmetic `h * (MAX_W / w)` is not exact in doubles, so its
  division and multiplication are each followed by an explicit binary64
  rounding (`roundDouble`).
* A store into a `Uint8ClampedArray` clamps to `[0, 255]` and rounds to the
  nearest integer with ties to even, per ECMAScript `ToUint8Clamp`.
-/

namespace CyberShield

/-! ## Image enhancement pipeline (`enhanceImageForAnalysis`, src/App.tsx) -/

/-- Resize bound from the source: `const MAX_W = 1920`. -/
def MAX_W : ℕ := 1920

/-- Round-half-to-even of a rational to an integer. -/
def rhe (x : ℚ) : ℤ :=
  if Int.fract x < 1/2 then ⌊x⌋
  else if 1/2 < Int.fract x then ⌊x⌋ + 1
  else if 2 ∣ ⌊x⌋ then ⌊x⌋ else ⌊x⌋ + 1

/-- Value of the IEEE-754 binary64 (double) nearest to `q`, ties to even:
the significand is rounded to 53 bits at the scale of `q`. Exponent
overflow and subnormals are not modelled; for the magnitudes the resize
arithmetic produces (ratios and products of positive image dimensions)
binary64 is normal and this is exactly the double rounding. -/
def roundDouble (q : ℚ) : ℚ :=
  if q = 0 then 0
  else (rhe (q / 2 ^ (Int.log 2 |q| - 52)) : ℚ) * 2 ^ (Int.log 2 |q| - 52)

/-- JavaScript `Math.round`: the integer nearest to the exact value of the
double argument, half toward positive infinity, that is `⌊q + 1/2⌋`. -/
def jsRound (q : ℚ) : ℤ := ⌊q + 1/2⌋

/-- Dimensions of the working canvas: `if (w > MAX_W) { h = Math.round(h *
(MAX_W / w)); w = MAX_W; }`, otherwise the original dimensions are kept.
The expression `h * (MAX_W / w)` is evaluated in IEEE doubles: `w`, `h` and
`MAX_W` are exact doubles (dimensions are far below `2^53`), and the
division and the multiplication each round their exact result to binary64
before `Math.round` rounds the final double. -/
def resizeDims (w hgt : ℕ) : ℕ × ℕ :=
  if MAX_W < w then
    (MAX_W,
      (jsRound (roundDouble ((hgt : ℚ) *
        roundDouble ((MAX_W : ℚ) / (w : ℚ))))).toNat)
  else (w, hgt)

/-- Storing an integer into a `Uint8ClampedArray` after the source's
`Math.min(255, Math.max(0, val))`: the clamp of `val` to `[0, 255]`. -/
def clamp255 (v : ℤ) : ℕ := (min 255 (max 0 v)).toNat

/-- Flat buffer index of pixel `(x, y)`: `(y * w + x) * 4`. -/
def pix (w x y : ℕ) : ℕ := (y * w + x) * 4

/-- Sharpened value of channel `c` of interior pixel `(x, y)`, reading the
snapshot `orig` (`copyData` in the source): the clamp of
`5*center - top - bottom - left - right`. -/
def sharpChan (w : ℕ) (orig : ℕ → ℕ) (x y c : ℕ) : ℕ :=
  clamp255 (5 * (orig (pix w x y + c) : ℤ)
    - (orig (pix w x (y - 1) + c) : ℤ)
    - (orig (pix w x (y + 1) + c) : ℤ)
    - (orig (pix w (x - 1) y + c) : ℤ)
    - (orig (pix w (x + 1) y + c) : ℤ))

/-- Body of the sharpen loop for one pixel `(x, y)`: writes channels 0, 1, 2
at `idx = (y*w + x)*4` into the working buffer `d`, values computed from the
snapshot `orig`. The alpha channel (`c = 3`) is not written. -/
def writeSharp (w : ℕ) (orig : ℕ → ℕ) (y x : ℕ) (d : ℕ → ℕ) : ℕ → ℕ :=
  fun i =>
    if i = pix w x y then sharpChan w orig x y 0
    else if i = pix w x y + 1 then sharpChan w orig x y 1
    else if i = pix w x y + 2 then sharpChan w orig x y 2
    else d i

/-- Inner sharpen loop `for (let x = 1; x < w - 1; x++)` for a fixed row. -/
def sharpenRow (w : ℕ) (orig : ℕ → ℕ) (y : ℕ) (d : ℕ → ℕ) : ℕ → ℕ :=
  (List.range' 1 (w - 2)).foldl (fun dd x => writeSharp w orig y x dd) d

/-- Outer sharpen loop `for (let y = 1; y < h - 1; y++)`, started on the
resized buffer itself (the source snapshots `copyData` first and then writes
in place into `data`). -/
def sharpenPass (w hgt : ℕ) (orig : ℕ → ℕ) : ℕ → ℕ :=
  (List.range' 1 (hgt - 2)).foldl (fun dd y => sharpenRow w orig y dd) orig

/-- Contrast factor from the source: `const contrast = 1.20`. -/
def contrastFactor : ℚ := 6 / 5

/-- Contrast intercept from the source:
`const intercept = 128 * (1 - contrast)`. -/
def intercept : ℚ := 128 * (1 - contrastFactor)

/-- Clamp of a rational to `[0, 255]`: `Math.min(255, Math.max(0, q))`. -/
def qclamp (q : ℚ) : ℚ := min 255 (max 0 q)

/-- Store of a number already clamped into `[0, 255]` into a
`Uint8ClampedArray` entry: round to nearest, ties to even
(ECMAScript `ToUint8Clamp`). -/
def u8round (q : ℚ) : ℕ :=
  (if Int.fract q < 1/2 then ⌊q⌋
   else if 1/2 < Int.fract q then ⌊q⌋ + 1
   else if 2 ∣ ⌊q⌋ then ⌊q⌋ else ⌊q⌋ + 1).toNat

/-- Contrast transform of one stored channel value:
`data[i] = Math.min(255, Math.max(0, data[i] * contrast + intercept))`. -/
def contrastChan (v : ℕ) : ℕ :=
  u8round (qclamp ((v : ℚ) * contrastFactor + intercept))

/-- Body of the contrast loop for iteration `k` (loop variable `i = 4*k`):
writes channels `i`, `i+1`, `i+2`; the alpha channel `i+3` is skipped. -/
def contrastWrite (d : ℕ → ℕ) (k : ℕ) : ℕ → ℕ :=
  fun i =>
    if i = 4 * k then contrastChan (d (4 * k))
    else if i = 4 * k + 1 then contrastChan (d (4 * k + 1))
    else if i = 4 * k + 2 then contrastChan (d (4 * k + 2))
    else d i

/-- Contrast loop `for (let i = 0; i < data.length; i += 4)`; for a `w × h`
canvas `data.length = 4 * w * h`, so there are `npx = w * h` iterations. -/
def contrastPass (npx : ℕ) (d : ℕ → ℕ) : ℕ → ℕ :=
  (List.range npx).foldl contrastWrite d

/-- The two in-place passes of the pipeline applied to the resized buffer:
sharpening (reading the snapshot) followed by the contrast boost. -/
def enhancePixels (w hgt : ℕ) (orig : ℕ → ℕ) : ℕ → ℕ :=
  contrastPass (w * hgt) (sharpenPass w hgt orig)

/-- Synthetic image of the spec's border-passthrough property: all border
pixels hold 255 in every channel, all interior pixels hold 0. -/
def synthImg (w hgt : ℕ) : ℕ → ℕ := fun i =>
  if (i / 4) % w = 0 ∨ (i / 4) % w = w - 1 ∨ (i / 4) / w = 0 ∨ (i / 4) / w = hgt - 1
  then 255 else 0

/-! ## Buffer-update machinery

The sharpen pass writes each buffer index at most once, and every written
value is a function of the snapshot only, so each loop is characterised by a
"write descriptor" `g : σ → ℕ → Option ℕ` mapping a loop iteration and an
index to the value written there, if any. -/

/-- One loop iteration described by `g`: indices where `g` yields a value are
overwritten, the rest fall through to the buffer `d`. -/
def applyWrite (g : ℕ → Option ℕ) (d : ℕ → ℕ) : ℕ → ℕ :=
  fun i => (g i).getD (d i)

lemma foldl_applyWrite_none {σ : Type} (g : σ → ℕ → Option ℕ) (i : ℕ)
    (L : List σ) :
    ∀ d : ℕ → ℕ, (∀ s ∈ L, g s i = none) →
      (L.foldl (fun dd s => applyWrite (g s) dd) d) i = d i := by
  induction L with
  | nil => intro d _; rfl
  | cons s L ih =>
    intro d hg
    simp only [List.foldl_cons]
    rw [ih _ (fun s1 hs1 => hg s1 (List.mem_cons_of_mem _ hs1))]
    simp [applyWrite, hg s (List.mem_cons_self _ _)]

lemma foldl_applyWrite_some {σ : Type} (g : σ → ℕ → Option ℕ) (v : ℕ) (i : ℕ)
    (L : List σ) :
    ∀ d : ℕ → ℕ, (∀ s ∈ L, ∀ x, g s i = some x → x = v) →
      (∃ s ∈ L, g s i ≠ none) →
      (L.foldl (fun dd s => applyWrite (g s) dd) d) i = v := by
  induction L with
  | nil => intro d _ hex; simp at hex
  | cons s L ih =>
    intro d hv hex
    simp only [List.foldl_cons]
    by_cases hL : ∃ s1 ∈ L, g s1 i ≠ none
    · exact ih _ (fun s1 hs1 => hv s1 (List.mem_cons_of_mem _ hs1)) hL
    · push_neg at hL
      rw [foldl_applyWrite_none g i L _ hL]
      have hs : g s i ≠ none := by
        obtain ⟨s0, hs0, hne⟩ := hex
        rcases List.mem_cons.mp hs0 with h | h
        · exact h ▸ hne
        · exact absurd (hL s0 h) hne
      obtain ⟨x, hx⟩ := Option.ne_none_iff_exists'.mp hs
      simp [applyWrite, hx, hv s (List.mem_cons_self _ _) x hx]

/-- Decoding a channel index: `(y*w + x)*4 + c` recovers `c`, `x`, `y`. -/
lemma decode_pix (w x y c : ℕ) (hx : x < w) (hc : c < 4) :
    (pix w x y + c) % 4 = c ∧ ((pix w x y + c) / 4) % w = x ∧
      ((pix w x y + c) / 4) / w = y := by
  have hw : 0 < w := by omega
  have hdm : ((y * w + x) * 4 + c) / 4 = y * w + x ∧
      ((y * w + x) * 4 + c) % 4 = c := by
    generalize y * w + x = p
    omega
  have hdiv : (pix w x y + c) / 4 = y * w + x := hdm.1
  have hmod : (pix w x y + c) % 4 = c := hdm.2
  refine ⟨hmod, ?_, ?_⟩
  · rw [hdiv, Nat.add_comm, Nat.add_mul_mod_self_right, Nat.mod_eq_of_lt hx]
  · rw [hdiv, Nat.add_comm, Nat.add_mul_div_right _ _ hw, Nat.div_eq_of_lt hx,
      Nat.zero_add]

/-- Any index is the channel index of its decoded pixel coordinates. -/
lemma encode_pix (w i : ℕ) :
    pix w ((i / 4) % w) ((i / 4) / w) + i % 4 = i := by
  show ((i / 4) / w * w + (i / 4) % w) * 4 + i % 4 = i
  have h1 : (i / 4) / w * w + (i / 4) % w = i / 4 := by
    rw [Nat.mul_comm]
    exact Nat.div_add_mod (i / 4) w
  rw [h1]
  omega

/-- Write descriptor of one sharpen-loop iteration. -/
def gSharp (w : ℕ) (orig : ℕ → ℕ) (y x : ℕ) : ℕ → Option ℕ := fun i =>
  if i = pix w x y then some (sharpChan w orig x y 0)
  else if i = pix w x y + 1 then some (sharpChan w orig x y 1)
  else if i = pix w x y + 2 then some (sharpChan w orig x y 2)
  else none

lemma writeSharp_eq_applyWrite (w : ℕ) (orig : ℕ → ℕ) (y x : ℕ) (d : ℕ → ℕ) :
    writeSharp w orig y x d = applyWrite (gSharp w orig y x) d := by
  funext i
  simp only [writeSharp, applyWrite, gSharp]
  split_ifs <;> rfl

lemma gSharp_some (w : ℕ) (orig : ℕ → ℕ) (y x i v : ℕ) (hx : x < w)
    (hv : gSharp w orig y x i = some v) :
    i % 4 < 3 ∧ (i / 4) % w = x ∧ (i / 4) / w = y ∧
      v = sharpChan w orig ((i / 4) % w) ((i / 4) / w) (i % 4) := by
  unfold gSharp at hv
  split_ifs at hv with h0 h1 h2
  · have hd := decode_pix w x y 0 hx (by omega)
    rw [Nat.add_zero] at hd
    obtain ⟨hm, hxx, hyy⟩ := h0 ▸ hd
    refine ⟨by omega, hxx, hyy, ?_⟩
    rw [hm, hxx, hyy]
    exact (Option.some.inj hv).symm
  · have hd := decode_pix w x y 1 hx (by omega)
    obtain ⟨hm, hxx, hyy⟩ := h1 ▸ hd
    refine ⟨by omega, hxx, hyy, ?_⟩
    rw [hm, hxx, hyy]
    exact (Option.some.inj hv).symm
  · have hd := decode_pix w x y 2 hx (by omega)
    obtain ⟨hm, hxx, hyy⟩ := h2 ▸ hd
    refine ⟨by omega, hxx, hyy, ?_⟩
    rw [hm, hxx, hyy]
    exact (Option.some.inj hv).symm

lemma gSharp_ne_none_iff (w : ℕ) (orig : ℕ → ℕ) (y x i : ℕ) (hx : x < w) :
    gSharp w orig y x i ≠ none ↔
      (i % 4 < 3 ∧ (i / 4) % w = x ∧ (i / 4) / w = y) := by
  constructor
  · intro hne
    obtain ⟨v, hv⟩ := Option.ne_none_iff_exists'.mp hne
    obtain ⟨a, b, c, _⟩ := gSharp_some w orig y x i v hx hv
    exact ⟨a, b, c⟩
  · rintro ⟨hm, hxx, hyy⟩
    have henc := encode_pix w i
    rw [hxx, hyy] at henc
    have h3 : i % 4 = 0 ∨ i % 4 = 1 ∨ i % 4 = 2 := by omega
    unfold gSharp
    rcases h3 with h | h | h
    · rw [h, Nat.add_zero] at henc
      rw [if_pos henc.symm]
      simp
    · rw [h] at henc
      have hne0 : i ≠ pix w x y := by omega
      rw [if_neg hne0, if_pos henc.symm]
      simp
    · rw [h] at henc
      have hne0 : i ≠ pix w x y := by omega
      have hne1 : i ≠ pix w x y + 1 := by omega
      rw [if_neg hne0, if_neg hne1, if_pos henc.symm]
      simp

/-- Pointwise characterisation of one row of the sharpen loop. -/
lemma sharpenRow_eq (w : ℕ) (orig : ℕ → ℕ) (y : ℕ) (d : ℕ → ℕ) (i : ℕ) :
    sharpenRow w orig y d i =
      if 1 ≤ (i / 4) % w ∧ (i / 4) % w < w - 1 ∧ (i / 4) / w = y ∧ i % 4 < 3
      then sharpChan w orig ((i / 4) % w) ((i / 4) / w) (i % 4)
      else d i := by
  have hfold : sharpenRow w orig y d =
      (List.range' 1 (w - 2)).foldl
        (fun dd x => applyWrite (gSharp w orig y x) dd) d := by
    unfold sharpenRow
    congr 1
    funext dd x
    exact writeSharp_eq_applyWrite w orig y x dd
  rw [hfold]
  have hmem : ∀ x ∈ List.range' 1 (w - 2), x < w := by
    intro x hx
    rw [List.mem_range'_1] at hx
    omega
  split_ifs with hcond
  · obtain ⟨h1, h2, h3, h4⟩ := hcond
    apply foldl_applyWrite_some
    · intro x hx v hv
      exact (gSharp_some w orig y x i v (hmem x hx) hv).2.2.2
    · refine ⟨(i / 4) % w, ?_, ?_⟩
      · rw [List.mem_range'_1]
        omega
      · rw [gSharp_ne_none_iff w orig y ((i / 4) % w) i (by omega)]
        exact ⟨h4, rfl, h3⟩
  · apply foldl_applyWrite_none
    intro x hx
    by_contra hne
    obtain ⟨hm, hxx, hyy⟩ := (gSharp_ne_none_iff w orig y x i (hmem x hx)).mp hne
    rw [List.mem_range'_1] at hx
    exact hcond ⟨by omega, by omega, hyy, hm⟩

/-- Write descriptor of one full row of the sharpen loop. -/
def gRow (w : ℕ) (orig : ℕ → ℕ) (y : ℕ) : ℕ → Option ℕ := fun i =>
  if 1 ≤ (i / 4) % w ∧ (i / 4) % w < w - 1 ∧ (i / 4) / w = y ∧ i % 4 < 3
  then some (sharpChan w orig ((i / 4) % w) ((i / 4) / w) (i % 4))
  else none

lemma sharpenRow_eq_applyWrite (w : ℕ) (orig : ℕ → ℕ) (y : ℕ) (d : ℕ → ℕ) :
    sharpenRow w orig y d = applyWrite (gRow w orig y) d := by
  funext i
  rw [sharpenRow_eq]
  simp only [applyWrite, gRow]
  split_ifs <;> rfl

/-- Pointwise characterisation of the whole sharpen pass: an interior RGB
channel receives the clamped kernel value computed from the snapshot, every
other index keeps its pre-pass value. -/
theorem sharpenPass_eq (w hgt : ℕ) (orig : ℕ → ℕ) (i : ℕ) :
    sharpenPass w hgt orig i =
      if 1 ≤ (i / 4) % w ∧ (i / 4) % w < w - 1 ∧
         1 ≤ (i / 4) / w ∧ (i / 4) / w < hgt - 1 ∧ i % 4 < 3
      then sharpChan w orig ((i / 4) % w) ((i / 4) / w) (i % 4)
      else orig i := by
  have hfold : sharpenPass w hgt orig =
      (List.range' 1 (hgt - 2)).foldl
        (fun dd y => applyWrite (gRow w orig y) dd) orig := by
    unfold sharpenPass
    congr 1
    funext dd y
    exact sharpenRow_eq_applyWrite w orig y dd
  rw [hfold]
  split_ifs with hcond
  · obtain ⟨h1, h2, h3, h4, h5⟩ := hcond
    apply foldl_applyWrite_some
    · intro y hy v hv
      unfold gRow at hv
      split_ifs at hv with hc
      exact (Option.some.inj hv).symm
    · refine ⟨(i / 4) / w, ?_, ?_⟩
      · rw [List.mem_range'_1]
        omega
      · unfold gRow
        rw [if_pos ⟨h1, h2, rfl, h5⟩]
        simp
  · apply foldl_applyWrite_none
    intro y hy
    rw [List.mem_range'_1] at hy
    unfold gRow
    split_ifs with hc
    · obtain ⟨a, b, hyy, e⟩ := hc
      exact absurd ⟨a, b, by omega, by omega, e⟩ hcond
    · rfl

/-- Pointwise characterisation of the contrast pass: every RGB channel of
the `n` pixels is transformed, alpha channels and out-of-range indices are
untouched. -/
theorem contrastPass_eq (n : ℕ) : ∀ (d : ℕ → ℕ) (i : ℕ),
    contrastPass n d i =
      if i < 4 * n ∧ i % 4 < 3 then contrastChan (d i) else d i := by
  induction n with
  | zero =>
    intro d i
    unfold contrastPass
    rw [List.range_zero, List.foldl_nil, if_neg (by omega)]
  | succ n ih =>
    intro d i
    have hstep : contrastPass (n + 1) d = contrastWrite (contrastPass n d) n := by
      unfold contrastPass
      rw [List.range_succ, List.foldl_append, List.foldl_cons, List.foldl_nil]
    rw [hstep]
    simp only [contrastWrite]
    by_cases h0 : i = 4 * n
    · subst h0
      rw [if_pos rfl, ih d (4 * n), if_neg (by omega), if_pos (by omega)]
    · by_cases h1 : i = 4 * n + 1
      · subst h1
        rw [if_neg h0, if_pos rfl, ih d (4 * n + 1), if_neg (by omega),
          if_pos (by omega)]
      · by_cases h2 : i = 4 * n + 2
        · subst h2
          rw [if_neg h0, if_neg h1, if_pos rfl, ih d (4 * n + 2),
            if_neg (by omega), if_pos (by omega)]
        · rw [if_neg h0, if_neg h1, if_neg h2, ih d i]
          by_cases hm : i < 4 * n ∧ i % 4 < 3
          · rw [if_pos hm, if_pos (by omega)]
          · rw [if_neg hm, if_neg (by omega)]

/-! ## Data model (`src/types.ts`) -/

/-- Threat levels of the classifier verdict (`enum ThreatLevel`). -/
inductive ThreatLevel where
  | Safe
  | Suspicious
  | HighRisk
  | Fraud
deriving DecidableEq

/-- Final verdict (`enum Verdict`). -/
inductive Verdict where
  | Trust
  | DoNotTrust
deriving DecidableEq

/-- Structured classifier verdict (`interface AnalysisResult`). -/
structure AnalysisResult where
  threatLevel : ThreatLevel
  reason : String
  warning : String
  finalVerdict : Verdict
  safetyScore : ℕ
  analysisSteps : List String
deriving DecidableEq

/-- History entry (`interface AnalysisHistoryItem extends AnalysisResult`);
`type` is one of `"text" | "image" | "video" | "binary"`. -/
structure AnalysisHistoryItem extends AnalysisResult where
  id : String
  timestamp : ℕ
  preview : String
  type : String
deriving DecidableEq

/-! ## File selection and payload construction (`src/App.tsx`) -/

/-- JavaScript `String.prototype.startsWith`, used by the source to dispatch
on the file's MIME type. -/
def strStarts (s p : String) : Bool := p.data.isPrefixOf s.data

/-- A selected file as seen by the handlers: its `name`, MIME `type`,
byte `size`, and `content`, the data URL produced by `fileToBase64`
(a `data:<mime>;base64,<payload>` string over the original bytes). -/
structure FileDesc where
  name : String
  type : String
  size : ℕ
  content : String
deriving DecidableEq

/-- Error record displayed to the user (`interface AppError`). -/
structure AppError where
  title : String
  message : String
  suggestion : String
  type : String
deriving DecidableEq

/-- The validation error raised for oversized videos in `handleFileChange`. -/
def fileTooLargeError : AppError :=
  { title := "File Too Large"
    message := "For this demo, video files must be under 20MB."
    suggestion := "Please upload a shorter clip or compress the video."
    type := "validation" }

/-- The slice of component state touched by `handleFileChange`. -/
structure ScanState where
  selectedFile : Option FileDesc
  previewUrl : Option String
  processedImage : Option String
  error : Option AppError
  result : Option AnalysisResult

/-- Opaque preview handle for a file; models `URL.createObjectURL(file)`,
whose only relevant property is that it is set and later possibly cleared. -/
def objectUrlOf (f : FileDesc) : String := "blob:" ++ f.name

/-- State update performed by `handleFileChange` for a selected file `f`.
`enh` is the outcome of awaiting `enhanceImageForAnalysis(file)` when `f` is
an image: `some dataUrl` if the promise resolved, `none` if it rejected
(`DecodeError` from `img.onerror` or `RenderContextError` from a missing
canvas context); in the rejection case the `catch` block only logs, leaving
`processedImage` as `null`. -/
def handleFileChange (f : FileDesc) (enh : Option String) (s : ScanState) : ScanState :=
  let s1 : ScanState :=
    { s with selectedFile := some f
             result := none
             error := none
             processedImage := none
             previewUrl := some (objectUrlOf f) }
  if strStarts f.type "image/" then
    match enh with
    | some e => { s1 with processedImage := some e }
    | none => s1
  else if strStarts f.type "video/" then
    if 20 * 1024 * 1024 < f.size then
      { s1 with error := some fileTooLargeError
                selectedFile := none
                previewUrl := none }
    else s1
  else s1

/-- Request payload handed to `analyzeContent(contentPayload, base64Data,
mimeType)`. -/
structure Payload where
  text : String
  base64Data : Option String
  mimeType : Option String
deriving DecidableEq

/-- Body of a data URL: `s.replace(/^data:.+;base64,/, '')`. The greedy
regex strips everything through the last `";base64,"` of a string starting
with `"data:"`; base64 payloads contain no `";"`, so on the data URLs the
handlers produce this is the part after the single header. -/
def dataUrlBody (s : String) : String :=
  if strStarts s "data:" ∧ 2 ≤ (s.splitOn ";base64,").length
  then (s.splitOn ";base64,").getLastD s else s

/-- Metadata note appended for an image that was pre-processed. -/
def sysImageNote : String :=
  "\n\n[SYSTEM METADATA: Image pre-processed with Edge Sharpening.]"

/-- Metadata note appended for a video upload. -/
def sysVideoNote (name : String) : String :=
  "\n\n[SYSTEM METADATA: Analyzing Video Clip: " ++ name ++ "]"

/-- Size in KB with two decimals: `(size/1024).toFixed(2)` (ties rendered
upward). -/
def kbTwoDecimals (size : ℕ) : String :=
  let cents := (size * 100 * 2 + 1024) / (1024 * 2)
  toString (cents / 100) ++ "." ++
    (if cents % 100 < 10 then "0" else "") ++ toString (cents % 100)

/-- Metadata block appended for files that are neither image-with-processed
result nor video (the `else` branch of the payload construction). -/
def metadataBlock (f : FileDesc) : String :=
  "\n\n[FILE METADATA]\nFilename: " ++ f.name ++
  "\nSize: " ++ kbTwoDecimals f.size ++ " KB" ++
  "\nType: " ++ (if f.type = "" then "Unknown Binary" else f.type) ++
  "\n\nWARNING: USER UPLOADED AN EXECUTABLE/INSTALLER FILE. CHECK FOR MALWARE NAMING CONVENTIONS."

/-- Payload construction of `handleAnalyze` (lines 540-557): dispatch on the
selected file. The source guard is `selectedFile.type.startsWith('image/')
&& processedImage`; `processedImage` is truthy exactly when it is a
(nonempty) data URL, modelled as `Option.isSome`. -/
def buildPayload (inputText : String) (selectedFile : Option FileDesc)
    (processedImage : Option String) : Payload :=
  match selectedFile with
  | none => { text := inputText, base64Data := none, mimeType := none }
  | some f =>
    if strStarts f.type "image/" ∧ processedImage.isSome then
      { text := inputText ++ sysImageNote
        base64Data := some (dataUrlBody (processedImage.getD ""))
        mimeType := some "image/jpeg" }
    else if strStarts f.type "video/" then
      { text := inputText ++ sysVideoNote f.name
        base64Data := some (dataUrlBody f.content)
        mimeType := some f.type }
    else
      { text := inputText ++ metadataBlock f
        base64Data := none
        mimeType := none }

/-! ## Scan history (`src/App.tsx`, `handleAnalyze` and the persistence
effect) -/

/-- localStorage key used by the history effect. -/
def HISTORY_KEY : String := "cyberShieldHistory"

/-- History update of `handleAnalyze`:
`setHistory(prev => [newHistoryItem, ...prev].slice(0, 50))`. -/
def updateHistory (item : AnalysisHistoryItem) (prev : List AnalysisHistoryItem) :
    List AnalysisHistoryItem :=
  (item :: prev).take 50

/-- localStorage, modelled as a typed key-value map: the platform JSON codec
(`JSON.stringify` written by the effect, `JSON.parse` read on mount) is a
bijection on the history lists the component stores, so the store holds the
decoded lists directly. -/
def HistoryStore : Type := String → Option (List AnalysisHistoryItem)

/-- The persistence effect: `localStorage.setItem('cyberShieldHistory',
JSON.stringify(history))`, run whenever `history` changes. -/
def setHistoryStorage (st : HistoryStore) (h : List AnalysisHistoryItem) : HistoryStore :=
  fun k => if k = HISTORY_KEY then some h else st k

/-- The mount-time read: `localStorage.getItem('cyberShieldHistory')`,
parsed, defaulting to `[]` when absent. -/
def loadHistoryStorage (st : HistoryStore) : List AnalysisHistoryItem :=
  (st HISTORY_KEY).getD []

/-! ## Helper bounds and string facts -/

lemma clamp255_le (v : ℤ) : clamp255 v ≤ 255 := by
  unfold clamp255
  have h := min_le_left (255 : ℤ) (max 0 v)
  omega

lemma u8round_qclamp_le (q : ℚ) : u8round (qclamp q) ≤ 255 := by
  have h255 : qclamp q ≤ 255 := min_le_left _ _
  have hfl : ⌊qclamp q⌋ ≤ 255 := by
    have h := Int.floor_le_floor h255
    simpa using h
  have hkey : 1 / 2 ≤ Int.fract (qclamp q) → ⌊qclamp q⌋ ≤ 254 := by
    intro hfr
    have hsum : (⌊qclamp q⌋ : ℚ) + Int.fract (qclamp q) = qclamp q :=
      Int.floor_add_fract _
    have h2 : (⌊qclamp q⌋ : ℚ) < 255 := by linarith
    have h3 : ⌊qclamp q⌋ < 255 := by exact_mod_cast h2
    omega
  unfold u8round
  split_ifs with hf1 hf2 hf3
  · omega
  · have h := hkey (le_of_lt hf2)
    omega
  · omega
  · have h := hkey (le_of_not_lt hf1)
    omega

lemma abs_rhe_sub_le (x : ℚ) : |(rhe x : ℚ) - x| ≤ 1 / 2 := by
  have hfr : (0:ℚ) ≤ Int.fract x := Int.fract_nonneg x
  have hfr1 : Int.fract x < 1 := Int.fract_lt_one x
  have hsum : (⌊x⌋ : ℚ) + Int.fract x = x := Int.floor_add_fract x
  unfold rhe
  split_ifs with h1 h2 h3
  · rw [abs_le]
    constructor <;> linarith
  · rw [abs_le]
    push_cast
    constructor <;> linarith
  · rw [abs_le]
    constructor <;> linarith
  · rw [abs_le]
    push_cast
    constructor <;> linarith

/-- A single binary64 rounding moves a nonzero value by at most
`|q| * 2^-53` (half an ulp at the scale of `q`). -/
lemma abs_roundDouble_sub_le (q : ℚ) (hq : q ≠ 0) :
    |roundDouble q - q| ≤ |q| * (2:ℚ) ^ (-53 : ℤ) := by
  unfold roundDouble
  rw [if_neg hq]
  set e : ℤ := Int.log 2 |q| - 52 with he
  have h2 : (0:ℚ) < 2 ^ e := zpow_pos (by norm_num) e
  have hqe : q / 2 ^ e * 2 ^ e = q := div_mul_cancel₀ q h2.ne'
  have hcalc : (rhe (q / 2 ^ e) : ℚ) * 2 ^ e - q
      = ((rhe (q / 2 ^ e) : ℚ) - q / 2 ^ e) * 2 ^ e := by
    rw [sub_mul, hqe]
  rw [hcalc, abs_mul, abs_of_pos h2]
  have hrhe := abs_rhe_sub_le (q / 2 ^ e)
  have hle : |(rhe (q / 2 ^ e) : ℚ) - q / 2 ^ e| * 2 ^ e ≤ 1 / 2 * 2 ^ e :=
    mul_le_mul_of_nonneg_right hrhe h2.le
  refine hle.trans ?_
  have hlog : (2:ℚ) ^ Int.log 2 |q| ≤ |q| := by
    have h := Int.zpow_log_le_self (show (1:ℕ) < 2 by norm_num)
      (abs_pos.mpr hq)
    exact_mod_cast h
  have hsplit : (1:ℚ) / 2 * 2 ^ e = 2 ^ Int.log 2 |q| * 2 ^ (-53 : ℤ) := by
    rw [he, show Int.log 2 |q| - 52 = Int.log 2 |q| + -53 + 1 by ring,
      zpow_add_one₀ (by norm_num : (2:ℚ) ≠ 0),
      zpow_add₀ (by norm_num : (2:ℚ) ≠ 0)]
    ring
  rw [hsplit]
  exact mul_le_mul_of_nonneg_right hlog (zpow_pos (by norm_num) _).le

/-- `Math.round` is stable under a perturbation that does not cross the
half-integer boundary. -/
lemma jsRound_eq_of_close (q d δ : ℚ) (hδ : |d - q| ≤ δ)
    (hfl : ⌊q + 1/2 - δ⌋ = ⌊q + 1/2 + δ⌋) : jsRound d = jsRound q := by
  have h0 : 0 ≤ δ := le_trans (abs_nonneg _) hδ
  rw [abs_le] at hδ
  unfold jsRound
  have h1 : ⌊q + 1/2 - δ⌋ ≤ ⌊d + 1/2⌋ := Int.floor_le_floor (by linarith)
  have h2 : ⌊d + 1/2⌋ ≤ ⌊q + 1/2 + δ⌋ := Int.floor_le_floor (by linarith)
  have h3 : ⌊q + 1/2 - δ⌋ ≤ ⌊q + 1/2⌋ := Int.floor_le_floor (by linarith)
  have h4 : ⌊q + 1/2⌋ ≤ ⌊q + 1/2 + δ⌋ := Int.floor_le_floor (by linarith)
  omega

/-- Uniqueness of the binary exponent: `Int.log 2 r = k` when
`2^k ≤ r < 2^(k+1)`. -/
lemma int_log_two_eq (r : ℚ) (k : ℤ) (hr : 0 < r)
    (h1 : (2:ℚ) ^ k ≤ r) (h2 : r < (2:ℚ) ^ (k + 1)) : Int.log 2 r = k := by
  have ha : k ≤ Int.log 2 r := by
    rw [← Int.zpow_le_iff_le_log (by norm_num) hr]
    exact_mod_cast h1
  have hb : Int.log 2 r < k + 1 := by
    rw [← Int.lt_zpow_iff_log_lt (by norm_num) hr]
    exact_mod_cast h2
  omega

/-- Two candidate prefixes of equal length that differ cannot both be
prefixes of the same string, so the MIME-type dispatch branches are
mutually exclusive. -/
lemma strStarts_mutual_exclusive (s p q : String)
    (hlen : p.data.length = q.data.length) (hne : p.data ≠ q.data)
    (hp : strStarts s p = true) : strStarts s q = false := by
  by_contra hq0
  simp only [Bool.not_eq_false] at hq0
  unfold strStarts at hp hq0
  have h1 := List.prefix_iff_eq_take.mp (List.isPrefixOf_iff_prefix.mp hp)
  have h2 := List.prefix_iff_eq_take.mp (List.isPrefixOf_iff_prefix.mp hq0)
  exact hne (by rw [h1, h2, hlen])

lemma strStarts_video_not_image (s : String)
    (h : strStarts s "video/" = true) : strStarts s "image/" = false :=
  strStarts_mutual_exclusive s "video/" "image/" (by decide) (by decide) h

lemma strStarts_image_not_video (s : String)
    (h : strStarts s "image/" = true) : strStarts s "video/" = false :=
  strStarts_mutual_exclusive s "image/" "video/" (by decide) (by decide) h

/-! ## Concrete fixtures for witnesses -/

/-- A small deterministic test image (buffer values in `[0, 255]`). -/
def img0 : ℕ → ℕ := fun i => (i * 37) % 256

lemma img0_le (j : ℕ) : img0 j ≤ 255 := by
  have h := Nat.mod_lt (j * 37) (show 0 < 256 by norm_num)
  unfold img0
  omega

/-- An image file whose enhancement failed (so `processedImage` is `null`). -/
def imgFail : FileDesc :=
  { name := "scan.png", type := "image/png", size := 4096
    content := "data:image/png;base64,AAAA" }

/-- A video file one byte over the 20MB limit. -/
def vidBig : FileDesc :=
  { name := "clip.mp4", type := "video/mp4", size := 20 * 1024 * 1024 + 1
    content := "data:video/mp4;base64,AAAA" }

/-- A video file at exactly the 20MB limit. -/
def vidOk : FileDesc :=
  { name := "ok.mp4", type := "video/mp4", size := 20 * 1024 * 1024
    content := "data:video/mp4;base64,AAAA" }

/-- Fresh component state. -/
def emptyScanState : ScanState :=
  { selectedFile := none, previewUrl := none, processedImage := none
    error := none, result := none }

/-! ## Claims -/

/-- C1: for every resized buffer, every interior pixel
(`1 ≤ x ≤ w-2`, `1 ≤ y ≤ h-2`) and every channel `c ∈ {R,G,B}`, the sharpen
stage writes `clamp(5*center - top - bottom - left - right, 0, 255)` where
all five reads are from the immutable pre-pass snapshot `orig`: no neighbour
read observes an already-sharpened value. -/
theorem sharpen_interior_kernel (w hgt : ℕ) (orig : ℕ → ℕ) (x y c : ℕ)
    (hx1 : 1 ≤ x) (hx2 : x ≤ w - 2) (hy1 : 1 ≤ y) (hy2 : y ≤ hgt - 2)
    (hc : c < 3) :
    sharpenPass w hgt orig (pix w x y + c) =
      clamp255 (5 * (orig (pix w x y + c) : ℤ)
        - (orig (pix w x (y - 1) + c) : ℤ)
        - (orig (pix w x (y + 1) + c) : ℤ)
        - (orig (pix w (x - 1) y + c) : ℤ)
        - (orig (pix w (x + 1) y + c) : ℤ)) := by
  have hw : 3 ≤ w := by omega
  have hh : 3 ≤ hgt := by omega
  have hxw : x < w := by omega
  obtain ⟨hm, hxx, hyy⟩ := decode_pix w x y c hxw (by omega)
  have hcond : 1 ≤ (pix w x y + c) / 4 % w ∧ (pix w x y + c) / 4 % w < w - 1 ∧
      1 ≤ (pix w x y + c) / 4 / w ∧ (pix w x y + c) / 4 / w < hgt - 1 ∧
      (pix w x y + c) % 4 < 3 := by
    rw [hm, hxx, hyy]
    exact ⟨hx1, by omega, hy1, by omega, hc⟩
  rw [sharpenPass_eq, if_pos hcond, hm, hxx, hyy]
  rfl

/-- Witness for C1 at a concrete interior pixel of a 3x3 image. -/
theorem sharpen_interior_kernel_witness :
    sharpenPass 3 3 img0 (pix 3 1 1 + 0) =
      clamp255 (5 * (img0 (pix 3 1 1 + 0) : ℤ)
        - (img0 (pix 3 1 (1 - 1) + 0) : ℤ)
        - (img0 (pix 3 1 (1 + 1) + 0) : ℤ)
        - (img0 (pix 3 (1 - 1) 1 + 0) : ℤ)
        - (img0 (pix 3 (1 + 1) 1 + 0) : ℤ)) :=
  sharpen_interior_kernel 3 3 img0 1 1 0 (by decide) (by decide) (by decide)
    (by decide) (by decide)

/-- C2 counterexample: at input 2816x11 the source's double-precision
`Math.round(h * (MAX_W / w))` yields height 7 — the double product
`11 * fl(1920/2816)` is one ulp below the exact half-integer 7.5 — while
the claim's exact `round(H * 1920 / W) = round(7.5)` is 8. -/
theorem resize_round_counterexample :
    resizeDims 2816 11 = (1920, 7) ∧
    (jsRound ((11 : ℚ) * 1920 / 2816)).toNat = 8 := by
  have hd1 : roundDouble ((1920 : ℚ) / 2816) =
      (6141272219141585 : ℚ) / 2 ^ 53 := by
    have hlog : Int.log 2 |(1920:ℚ)/2816| = -1 := by
      rw [abs_of_pos (by norm_num)]
      exact int_log_two_eq ((1920:ℚ)/2816) (-1) (by norm_num) (by norm_num)
        (by norm_num)
    unfold roundDouble
    rw [if_neg (by norm_num), hlog]
    norm_num [rhe, Int.fract]
  have hd2 : roundDouble ((11 : ℚ) * ((6141272219141585 : ℚ) / 2 ^ 53)) =
      (8444249301319679 : ℚ) / 2 ^ 50 := by
    have hlog : Int.log 2 |(11:ℚ) * ((6141272219141585 : ℚ) / 2 ^ 53)| = 2 := by
      rw [abs_of_pos (by norm_num)]
      exact int_log_two_eq _ 2 (by norm_num) (by norm_num) (by norm_num)
    unfold roundDouble
    rw [if_neg (by norm_num), hlog]
    norm_num [rhe, Int.fract]
  constructor
  · unfold resizeDims
    rw [if_pos (by norm_num [MAX_W])]
    have hc1 : ((MAX_W : ℚ) / ((2816:ℕ) : ℚ)) = (1920 : ℚ) / 2816 := by
      norm_num [MAX_W]
    rw [hc1, hd1]
    have hc2 : (((11:ℕ) : ℚ)) * ((6141272219141585 : ℚ) / 2 ^ 53)
        = (11 : ℚ) * ((6141272219141585 : ℚ) / 2 ^ 53) := by norm_num
    rw [hc2, hd2]
    have hjs : jsRound ((8444249301319679 : ℚ) / 2 ^ 50) = 7 := by
      unfold jsRound
      norm_num
    rw [hjs]
    rfl
  · have hjs : jsRound ((11 : ℚ) * 1920 / 2816) = 8 := by
      unfold jsRound
      norm_num
    rw [hjs]
    rfl

/-- C2 amended: for `W ≤ 1920` the input dimensions are kept; for
`W > 1920` the width is exactly 1920 and the height is `Math.round` of the
binary64 product `h * fl(1920/w)`, which equals the exact
`round(H * 1920 / W)` whenever `H*1920/W` is farther than
`H*1920/W * 2^-51` (the accumulated two-rounding error bound) from the
half-integer rounding boundary; at boundary inputs such as 2816x11 the two
differ by one. -/
theorem resize_bound_double (w hgt : ℕ) :
    (w ≤ MAX_W → resizeDims w hgt = (w, hgt)) ∧
    (MAX_W < w →
      (resizeDims w hgt).1 = 1920 ∧
      (⌊(hgt : ℚ) * 1920 / w + 1 / 2 -
            (hgt : ℚ) * 1920 / w * (2:ℚ) ^ (-51 : ℤ)⌋ =
          ⌊(hgt : ℚ) * 1920 / w + 1 / 2 +
            (hgt : ℚ) * 1920 / w * (2:ℚ) ^ (-51 : ℤ)⌋ →
        (resizeDims w hgt).2 = (jsRound ((hgt : ℚ) * 1920 / w)).toNat)) := by
  constructor
  · intro hw
    unfold resizeDims
    rw [if_neg (not_lt.mpr hw)]
  · intro hw
    have hwpos : (0:ℚ) < w := by
      have h1 : 0 < w := by
        have h2 : (1920 : ℕ) < w := hw
        omega
      exact_mod_cast h1
    refine ⟨?_, ?_⟩
    · unfold resizeDims
      rw [if_pos hw]
      rfl
    · intro hfl
      unfold resizeDims
      rw [if_pos hw]
      show (jsRound (roundDouble ((hgt : ℚ) *
          roundDouble ((MAX_W : ℚ) / (w : ℚ))))).toNat
        = (jsRound ((hgt : ℚ) * 1920 / w)).toNat
      by_cases h0 : hgt = 0
      · subst h0
        rw [show (((0:ℕ) : ℚ)) * roundDouble ((MAX_W : ℚ) / (w : ℚ)) = 0
            by norm_num]
        rw [show (((0:ℕ) : ℚ)) * 1920 / (w : ℚ) = 0 by norm_num]
        rw [show roundDouble 0 = 0 from if_pos rfl]
      · set r : ℚ := (MAX_W : ℚ) / (w : ℚ) with hr_def
        have hrpos : 0 < r := by
          rw [hr_def]
          apply div_pos _ hwpos
          norm_num [MAX_W]
        have hhpos : (0:ℚ) < (hgt : ℚ) := by
          exact_mod_cast Nat.pos_of_ne_zero h0
        have hqeq : (hgt : ℚ) * r = (hgt : ℚ) * 1920 / w := by
          rw [hr_def]
          unfold MAX_W
          push_cast
          ring
        have hc53 : (2:ℚ) ^ (-53 : ℤ) = 1 / 9007199254740992 := by norm_num
        have hc51 : (2:ℚ) ^ (-51 : ℤ) = 1 / 2251799813685248 := by norm_num
        have hd1 := abs_roundDouble_sub_le r hrpos.ne'
        rw [abs_of_pos hrpos] at hd1
        set d1 : ℚ := roundDouble r with hd1_def
        have hd1pos : 0 < d1 := by
          rw [hc53] at hd1
          rw [abs_le] at hd1
          linarith [hd1.1, hrpos]
        have habs1 : |(hgt : ℚ) * d1 - (hgt : ℚ) * r|
            ≤ (hgt : ℚ) * r * (2:ℚ) ^ (-53 : ℤ) := by
          rw [← mul_sub, abs_mul, abs_of_pos hhpos]
          calc (hgt:ℚ) * |d1 - r| ≤ (hgt:ℚ) * (r * (2:ℚ) ^ (-53:ℤ)) :=
              mul_le_mul_of_nonneg_left hd1 hhpos.le
            _ = (hgt:ℚ) * r * (2:ℚ) ^ (-53:ℤ) := by ring
        set p : ℚ := (hgt : ℚ) * d1 with hp_def
        have hppos : 0 < p := mul_pos hhpos hd1pos
        have hd2 := abs_roundDouble_sub_le p hppos.ne'
        rw [abs_of_pos hppos] at hd2
        set d2 : ℚ := roundDouble p with hd2_def
        have hq0 : 0 < (hgt:ℚ) * r := mul_pos hhpos hrpos
        have htot : |d2 - (hgt:ℚ) * r| ≤ ((hgt:ℚ) * r) * (2:ℚ) ^ (-51:ℤ) := by
          rw [hc53] at habs1 hd2
          rw [hc51]
          rw [abs_le] at habs1 hd2 ⊢
          constructor
          · nlinarith [habs1.1, habs1.2, hd2.1, hd2.2, hq0]
          · nlinarith [habs1.1, habs1.2, hd2.1, hd2.2, hq0]
        rw [hqeq] at htot
        have hjr : jsRound d2 = jsRound ((hgt:ℚ) * 1920 / w) :=
          jsRound_eq_of_close ((hgt:ℚ) * 1920 / w) d2
            ((hgt:ℚ) * 1920 / w * (2:ℚ) ^ (-51:ℤ)) htot hfl
        rw [hjr]

/-- Witness for amended C2: 3000x2000 is far from a rounding boundary and
resizes to width 1920 and height exactly `round(2000*1920/3000) = 1280`. -/
theorem resize_bound_double_witness :
    (resizeDims 3000 2000).1 = 1920 ∧
    (resizeDims 3000 2000).2 = (jsRound (((2000:ℕ) : ℚ) * 1920 / ((3000:ℕ) : ℚ))).toNat ∧
    (jsRound (((2000:ℕ) : ℚ) * 1920 / ((3000:ℕ) : ℚ))).toNat = 1280 := by
  have h := (resize_bound_double 3000 2000).2 (by norm_num [MAX_W])
  refine ⟨h.1, h.2 (by norm_num), ?_⟩
  have hjs : jsRound (((2000:ℕ) : ℚ) * 1920 / ((3000:ℕ) : ℚ)) = 1280 := by
    unfold jsRound
    norm_num
  rw [hjs]
  rfl

/-- C4: for any input buffer with all values in `[0, 255]`, every stored
value is in `[0, 255]` both after the sharpen stage and after the contrast
stage (values are naturals, so the lower bound is inherent). -/
theorem clamp_totality (w hgt : ℕ) (orig : ℕ → ℕ)
    (hb : ∀ j, orig j ≤ 255) (i : ℕ) :
    sharpenPass w hgt orig i ≤ 255 ∧ enhancePixels w hgt orig i ≤ 255 := by
  have hsharp : sharpenPass w hgt orig i ≤ 255 := by
    rw [sharpenPass_eq]
    split_ifs
    · exact clamp255_le _
    · exact hb i
  refine ⟨hsharp, ?_⟩
  unfold enhancePixels
  rw [contrastPass_eq (w * hgt) (sharpenPass w hgt orig) i]
  split_ifs
  · exact u8round_qclamp_le _
  · exact hsharp

/-- Witness for C4 on a concrete bounded image. -/
theorem clamp_totality_witness :
    sharpenPass 3 3 img0 5 ≤ 255 ∧ enhancePixels 3 3 img0 5 ≤ 255 :=
  clamp_totality 3 3 img0 img0_le 5

/-- C5: every border pixel (row 0, last row, column 0, last column) passes
through the sharpen stage unchanged in all four channels; in particular on
the synthetic image with 0 interior and 255 border, border pixels still
hold exactly 255 after sharpening. -/
theorem border_passthrough (w hgt : ℕ) (orig : ℕ → ℕ) (x y c : ℕ)
    (hx : x < w) (_hy : y < hgt) (hc : c < 4)
    (hb : x = 0 ∨ x = w - 1 ∨ y = 0 ∨ y = hgt - 1) :
    sharpenPass w hgt orig (pix w x y + c) = orig (pix w x y + c) ∧
    sharpenPass w hgt (synthImg w hgt) (pix w x y + c) = 255 := by
  obtain ⟨hm, hxx, hyy⟩ := decode_pix w x y c hx hc
  have hnot : ¬(1 ≤ (pix w x y + c) / 4 % w ∧ (pix w x y + c) / 4 % w < w - 1 ∧
      1 ≤ (pix w x y + c) / 4 / w ∧ (pix w x y + c) / 4 / w < hgt - 1 ∧
      (pix w x y + c) % 4 < 3) := by
    rw [hm, hxx, hyy]
    rintro ⟨h1, h2, h3, h4, h5⟩
    rcases hb with h | h | h | h <;> omega
  constructor
  · rw [sharpenPass_eq, if_neg hnot]
  · rw [sharpenPass_eq, if_neg hnot]
    show (if _ then (255 : ℕ) else 0) = 255
    rw [hxx, hyy, if_pos hb]

/-- Witness for C5 at a concrete border pixel of a 4x4 image. -/
theorem border_passthrough_witness :
    sharpenPass 4 4 img0 (pix 4 0 2 + 1) = img0 (pix 4 0 2 + 1) ∧
    sharpenPass 4 4 (synthImg 4 4) (pix 4 0 2 + 1) = 255 :=
  border_passthrough 4 4 img0 0 2 1 (by decide) (by decide) (by decide)
    (Or.inl rfl)

/-- C6: the contrast stage maps every stored R, G, B value `v` to the
(byte-quantised) `clamp(v * 1.20 + 128 * (1 - 1.20), 0, 255)`; in
particular 128 is a fixed point and 0 and 255 map to themselves exactly. -/
theorem contrast_formula :
    (∀ (n : ℕ) (d : ℕ → ℕ) (i : ℕ), i < 4 * n → i % 4 < 3 →
      contrastPass n d i =
        u8round (qclamp ((d i : ℚ) * (6 / 5) + 128 * (1 - 6 / 5)))) ∧
    contrastChan 128 = 128 ∧ contrastChan 0 = 0 ∧ contrastChan 255 = 255 := by
  refine ⟨?_, ?_, ?_, ?_⟩
  · intro n d i h1 h2
    rw [contrastPass_eq n d i, if_pos ⟨h1, h2⟩]
    rfl
  · norm_num [contrastChan, u8round, qclamp, contrastFactor, intercept,
      Int.fract]
    rfl
  · norm_num [contrastChan, u8round, qclamp, contrastFactor, intercept,
      Int.fract]
  · norm_num [contrastChan, u8round, qclamp, contrastFactor, intercept,
      Int.fract]
    rfl

/-- Witness for C6 on a one-pixel buffer holding 128. -/
theorem contrast_formula_witness :
    contrastPass 1 (fun _ => 128) 0 =
      u8round (qclamp ((128 : ℚ) * (6 / 5) + 128 * (1 - 6 / 5))) :=
  contrast_formula.1 1 (fun _ => 128) 0 (by norm_num) (by norm_num)

/-- C7: the alpha channel of every pixel is written by neither the sharpen
pass nor the contrast pass: after both passes it equals its post-resize
value. -/
theorem alpha_untouched (w hgt : ℕ) (orig : ℕ → ℕ) (i : ℕ)
    (ha : i % 4 = 3) :
    sharpenPass w hgt orig i = orig i ∧ enhancePixels w hgt orig i = orig i := by
  have hs : sharpenPass w hgt orig i = orig i := by
    rw [sharpenPass_eq, if_neg]
    rintro ⟨_, _, _, _, h5⟩
    omega
  refine ⟨hs, ?_⟩
  unfold enhancePixels
  rw [contrastPass_eq (w * hgt) (sharpenPass w hgt orig) i,
    if_neg (by rintro ⟨_, h2⟩; omega), hs]

/-- Witness for C7 at the alpha byte of the first pixel. -/
theorem alpha_untouched_witness :
    sharpenPass 3 3 img0 3 = img0 3 ∧ enhancePixels 3 3 img0 3 = img0 3 :=
  alpha_untouched 3 3 img0 3 (by decide)

/-- C8: after a successful analysis the new item is prepended (newest
first), the history never exceeds 50 items (`length = min (n+1) 50`), and
the updated list is what a later mount reads back from the persisted
store. -/
theorem history_update_persist (item : AnalysisHistoryItem)
    (prev : List AnalysisHistoryItem) (st : HistoryStore) :
    (updateHistory item prev).length = min (prev.length + 1) 50 ∧
    (updateHistory item prev).head? = some item ∧
    loadHistoryStorage (setHistoryStorage st (updateHistory item prev)) =
      updateHistory item prev := by
  refine ⟨?_, rfl, ?_⟩
  · unfold updateHistory
    rw [List.length_take, List.length_cons]
    omega
  · unfold loadHistoryStorage setHistoryStorage
    rw [if_pos rfl]
    rfl

/-- C9: when the working width or height is at most 2, the sharpen loops
are empty and the buffer handed to the contrast stage is the resized buffer
itself. -/
theorem sharpen_small_image_identity (w hgt : ℕ) (orig : ℕ → ℕ)
    (hsmall : w ≤ 2 ∨ hgt ≤ 2) (i : ℕ) :
    sharpenPass w hgt orig i = orig i := by
  rw [sharpenPass_eq, if_neg]
  rintro ⟨h1, h2, h3, h4, _⟩
  rcases hsmall with h | h <;> omega

/-- Witness for C9 on a 2-pixel-wide image. -/
theorem sharpen_small_image_identity_witness :
    sharpenPass 2 5 img0 6 = img0 6 :=
  sharpen_small_image_identity 2 5 img0 (Or.inl (by decide)) 6

/-- C3 counterexample: for an image file whose enhancement failed
(`processedImage = null`), the payload built by `handleAnalyze` carries no
attachment at all — in particular not the original image bytes, contrary to
the claim. The guard `selectedFile.type.startsWith('image/') &&
processedImage` fails, the video branch fails, and the request falls into
the metadata-only branch. -/
theorem enhancement_failure_counterexample :
    (buildPayload "ctx" (some imgFail) none).base64Data = none ∧
    (buildPayload "ctx" (some imgFail) none).base64Data ≠
      some (dataUrlBody imgFail.content) := by
  constructor
  · decide
  · decide

/-- C3 amended: when the enhancement of an image fails, the scan still
proceeds (non-fatally) but the request carries no attachment: the payload
has no base64 data and no MIME type, and its text is the input text with
the binary-file metadata block appended. -/
theorem enhancement_failure_fallback (t : String) (f : FileDesc)
    (himg : strStarts f.type "image/" = true) :
    (buildPayload t (some f) none).base64Data = none ∧
    (buildPayload t (some f) none).mimeType = none ∧
    (buildPayload t (some f) none).text = t ++ metadataBlock f := by
  have hvid : strStarts f.type "video/" = false :=
    strStarts_image_not_video f.type himg
  have hpay : buildPayload t (some f) none =
      Payload.mk (t ++ metadataBlock f) none none := by
    show (if strStarts f.type "image/" = true ∧
          (none : Option String).isSome = true
        then Payload.mk (t ++ sysImageNote)
          (some (dataUrlBody ((none : Option String).getD ""))) (some "image/jpeg")
        else if strStarts f.type "video/" = true
        then Payload.mk (t ++ sysVideoNote f.name)
          (some (dataUrlBody f.content)) (some f.type)
        else Payload.mk (t ++ metadataBlock f) none none) =
        Payload.mk (t ++ metadataBlock f) none none
    rw [if_neg (by simp), if_neg (by simp [hvid])]
  rw [hpay]
  exact ⟨rfl, rfl, rfl⟩

/-- Witness for the amended C3 at a concrete failed image upload. -/
theorem enhancement_failure_fallback_witness :
    (buildPayload "hi" (some imgFail) none).base64Data = none ∧
    (buildPayload "hi" (some imgFail) none).mimeType = none ∧
    (buildPayload "hi" (some imgFail) none).text = "hi" ++ metadataBlock imgFail :=
  enhancement_failure_fallback "hi" imgFail (by decide)

/-- C10: a selected video file over `20*1024*1024` bytes raises the
"File Too Large" validation error and clears both the selected file and the
preview, so any payload subsequently built carries no attachment; a video of
at most that size is accepted with no error. -/
theorem video_size_limit (f : FileDesc) (enh : Option String) (s : ScanState)
    (hv : strStarts f.type "video/" = true) :
    (20 * 1024 * 1024 < f.size →
      (handleFileChange f enh s).error = some fileTooLargeError ∧
      (handleFileChange f enh s).selectedFile = none ∧
      (handleFileChange f enh s).previewUrl = none ∧
      ∀ (t : String) (p : Option String),
        (buildPayload t (handleFileChange f enh s).selectedFile p).base64Data
          = none) ∧
    (f.size ≤ 20 * 1024 * 1024 →
      (handleFileChange f enh s).error = none ∧
      (handleFileChange f enh s).selectedFile = some f) := by
  have himg : strStarts f.type "image/" = false :=
    strStarts_video_not_image f.type hv
  constructor
  · intro hsize
    have hstate : handleFileChange f enh s =
        { s with selectedFile := none
                 result := none
                 error := some fileTooLargeError
                 processedImage := none
                 previewUrl := none } := by
      unfold handleFileChange
      rw [if_neg (by simp [himg]), if_pos (by simp [hv]), if_pos hsize]
    rw [hstate]
    refine ⟨rfl, rfl, rfl, ?_⟩
    intro t p
    rfl
  · intro hsize
    have hstate : handleFileChange f enh s =
        { s with selectedFile := some f
                 result := none
                 error := none
                 processedImage := none
                 previewUrl := some (objectUrlOf f) } := by
      unfold handleFileChange
      rw [if_neg (by simp [himg]), if_pos (by simp [hv]),
        if_neg (not_lt.mpr hsize)]
    rw [hstate]
    exact ⟨rfl, rfl⟩

/-- Witness for C10: the oversized video is rejected and cleared, the
in-limit video is accepted. -/
theorem video_size_limit_witness :
    ((handleFileChange vidBig none emptyScanState).error
        = some fileTooLargeError ∧
      (handleFileChange vidBig none emptyScanState).selectedFile = none) ∧
    ((handleFileChange vidOk none emptyScanState).error = none ∧
      (handleFileChange vidOk none emptyScanState).selectedFile = some vidOk) := by
  constructor
  · have h := (video_size_limit vidBig none emptyScanState (by decide)).1
      (by decide)
    exact ⟨h.1, h.2.1⟩
  · exact (video_size_limit vidOk none emptyScanState (by decide)).2 (by decide)

end CyberShield
